import Mathlib

/-!
Verification development for the timeline-relative keyframe animation engine
of a browser motion-graphics editor.

The definitions below are a shallow embedding of the TypeScript source:

* the keyframe interpolation engine (`lerp`, `lerpColor`, `easingFunctions`,
  the prev/next scan of `updateCanvas` / `updateCanvasToTime`);
* the project store actions (`addKeyframe`, `applyObjectPropertyChange`,
  `updateClip`, `saveCanvasState`);
* the timeline-sync visibility pass (`updateCanvasVisibility`);
* the state effects of the frame-sequence exporters (`exportGIF`,
  `exportVideo`) on the global playback time and playing flag.

JavaScript numbers are modelled as rationals (`ℚ`); `Math.round` is modelled
as round-half-up (`⌊x + 1/2⌋`), which is what `Math.round` does on the
values reached here.  Dynamic `value: any` payloads are modelled by the
tagged union `KFValue` (number, string, or an opaque payload standing for
any other runtime value).
-/

/-- Model of the dynamic `value: any` carried by a keyframe: a number,
a string, or some other opaque runtime value. -/
inductive KFValue where
  | num (q : ℚ)
  | str (s : String)
  | other (tag : ℕ)
deriving DecidableEq

/-- `Keyframe` record from the project store: id, target object id,
clip-relative time, property name, value and optional easing name. -/
structure Keyframe where
  id : String
  objectId : String
  relativeTime : ℚ
  property : String
  value : KFValue
  easing : Option String
deriving DecidableEq

/-- `lerp` from the animation/export engines:
`(start, end, t) ↦ start + (end - start) * t`. -/
def lerp (start stop t : ℚ) : ℚ :=
  start + (stop - start) * t

/-- JavaScript `Math.round`: round half toward positive infinity. -/
def jsRound (q : ℚ) : ℤ :=
  ⌊q + 1 / 2⌋

/-- Value of one hexadecimal digit character (0 for any other character;
only valid hex digits are reached by the color claims). -/
def hexDigitVal (c : Char) : ℕ :=
  if c = '0' then 0 else if c = '1' then 1 else if c = '2' then 2
  else if c = '3' then 3 else if c = '4' then 4 else if c = '5' then 5
  else if c = '6' then 6 else if c = '7' then 7 else if c = '8' then 8
  else if c = '9' then 9 else if c = 'a' then 10 else if c = 'b' then 11
  else if c = 'c' then 12 else if c = 'd' then 13 else if c = 'e' then 14
  else if c = 'f' then 15 else if c = 'A' then 10 else if c = 'B' then 11
  else if c = 'C' then 12 else if c = 'D' then 13 else if c = 'E' then 14
  else if c = 'F' then 15 else 0

/-- `parseInt(s, 16)` on a well-formed hex string. -/
def parseHex (s : String) : ℕ :=
  s.data.foldl (fun acc c => acc * 16 + hexDigitVal c) 0

/-- Check that the first character of a color string is the hash sign
(the `startsWith` guard of `lerpColor`). -/
def startsWithHash (s : String) : Bool :=
  s.data.head? == some '#'

/-- Drop the leading hash sign of a color string (the `slice(1)` call of
`lerpColor`). -/
def sliceFrom1 (s : String) : String :=
  String.mk (s.data.drop 1)

/-- `n.toString(16).padStart(6, '0')`: lowercase hex, left-padded with
zeros to six characters. -/
def toHex6 (n : ℕ) : String :=
  let ds := Nat.toDigits 16 n
  String.mk (List.replicate (6 - ds.length) '0' ++ ds)

/-- `lerpColor` from the animation/export engines: per-channel linear
interpolation of `#RRGGBB` hex colors with `Math.round` per channel;
falls back to a step function when either string is not a `#` color. -/
def lerpColor (startColor endColor : String) (t : ℚ) : String :=
  if startsWithHash startColor ∧ startsWithHash endColor then
    let start := parseHex (sliceFrom1 startColor)
    let stop := parseHex (sliceFrom1 endColor)
    let startR := start / 65536 % 256
    let startG := start / 256 % 256
    let startB := start % 256
    let endR := stop / 65536 % 256
    let endG := stop / 256 % 256
    let endB := stop % 256
    let r := (jsRound (lerp startR endR t)).toNat
    let g := (jsRound (lerp startG endG t)).toNat
    let b := (jsRound (lerp startB endB t)).toNat
    "#" ++ toHex6 ((r <<< 16) ||| (g <<< 8) ||| b)
  else
    if t < 1 / 2 then startColor else endColor

/-- Own-property lookup in the `easingFunctions` object literal: `some f`
when the name is one of the seven literal keys, `none` otherwise.
`easeOutCubic` is `(--t) * t * t + 1`, i.e. `(t-1)^3 + 1`.  This covers
only the own properties of the literal; the JS property access also walks
the prototype chain, which `easingLookupJS` below models in full, and
`resolveEasingJS_agrees` ties the two models together on every name whose
lookup actually yields an easing function. -/
def easingFunctions (name : String) : Option (ℚ → ℚ) :=
  if name = "linear" then some (fun t => t)
  else if name = "easeInQuad" then some (fun t => t * t)
  else if name = "easeOutQuad" then some (fun t => t * (2 - t))
  else if name = "easeInOutQuad" then
    some (fun t => if t < 1 / 2 then 2 * t * t else -1 + (4 - 2 * t) * t)
  else if name = "easeInCubic" then some (fun t => t * t * t)
  else if name = "easeOutCubic" then
    some (fun t => (t - 1) * (t - 1) * (t - 1) + 1)
  else if name = "easeInOutCubic" then
    some (fun t => if t < 1 / 2 then 4 * t * t * t
                   else (t - 1) * (2 * t - 2) * (2 * t - 2) + 1)
  else none

/-- Easing resolution as the engine idealises it: the easing name of the
next keyframe, defaulted to linear when absent (JS falsiness) and to the
linear function when the own-property lookup misses.  Faithful to the
source whenever the name is not inherited from `Object.prototype`
(`resolveEasingJS` below covers the inherited names the JS lookup reaches). -/
def resolveEasing (e : Option String) : ℚ → ℚ :=
  (easingFunctions (e.getD "linear")).getD (fun t => t)

/-- The prev/next scan over the (sorted) keyframes of one property in
`updateCanvas` / `updateCanvasToTime`: walking the list in order,
`prev` becomes every keyframe with `relativeTime ≤ r`, and the scan stops
at the first keyframe with `relativeTime ≥ r`, which becomes `next`. -/
def scanKeyframes : List Keyframe → ℚ → Option Keyframe →
    Option Keyframe × Option Keyframe
  | [], _, prev => (prev, none)
  | k :: ks, r, prev =>
      let prev1 := if k.relativeTime ≤ r then some k else prev
      if k.relativeTime ≥ r then (prev1, some k) else scanKeyframes ks r prev1

/-- Type-directed interpolation between the two bracketing keyframe values
at eased progress `e`: numbers are lerped, `#` hex strings are color-lerped,
anything else is a step function switching at `e = 1/2`. -/
def interpValues (pv nv : KFValue) (e : ℚ) : KFValue :=
  match pv, nv with
  | .num a, .num b => .num (lerp a b e)
  | .str a, .str b =>
      if startsWithHash a ∧ startsWithHash b then .str (lerpColor a b e)
      else if e < 1 / 2 then .str a else .str b
  | a, b => if e < 1 / 2 then a else b

/-- Resolution of the scan result (`updateCanvas`, lines 158–198):
no keyframes → no write; only `next` → pre-roll hold; only `prev` →
post-roll hold; equal relative times → `next.value`; otherwise eased
interpolation, the easing name taken from the `next` keyframe. -/
def resolveInterp (pn : Option Keyframe × Option Keyframe) (r : ℚ) :
    Option KFValue :=
  match pn with
  | (none, none) => none
  | (none, some nk) => some nk.value
  | (some pk, none) => some pk.value
  | (some pk, some nk) =>
      if pk.relativeTime = nk.relativeTime then some nk.value
      else
        let timeDiff := nk.relativeTime - pk.relativeTime
        let timeProgress := (r - pk.relativeTime) / timeDiff
        let eased := resolveEasing nk.easing timeProgress
        some (interpValues pk.value nk.value eased)

/-- Comparison used to sort the keyframes of a property ascending by
`relativeTime` (the comparator subtracts the two relative times). -/
def kfLe (a b : Keyframe) : Prop :=
  a.relativeTime ≤ b.relativeTime

instance : DecidableRel kfLe := fun a b =>
  inferInstanceAs (Decidable (a.relativeTime ≤ b.relativeTime))

instance : IsTotal Keyframe kfLe :=
  ⟨fun a b => le_total a.relativeTime b.relativeTime⟩

instance : IsTrans Keyframe kfLe :=
  ⟨fun _ _ _ hab hbc => le_trans hab hbc⟩

/-- The interpolation engine for one object property at global time `t`:
filter the keyframe set to the object, then to the property, sort by
relative time, compute `r = t - clipStartTime`, and run the prev/next scan.
Returns `none` when the property has no keyframes (live value untouched). -/
def interpolateAt (keyframes : List Keyframe) (objectId property : String)
    (clipStartTime t : ℚ) : Option KFValue :=
  let objectKeyframes := keyframes.filter (fun k => k.objectId == objectId)
  let propertyKeyframes := objectKeyframes.filter (fun k => k.property == property)
  let sorted := List.insertionSort kfLe propertyKeyframes
  let relativeTimeInClip := t - clipStartTime
  resolveInterp (scanKeyframes sorted relativeTimeInClip none) relativeTimeInClip

/-- `TimelineClip` from the timeline types: global start time, duration,
trim offsets and the optional link to a canvas object. -/
structure TimelineClip where
  id : String
  assetId : String
  startTime : ℚ
  duration : ℚ
  trimStart : ℚ
  trimEnd : ℚ
  name : String
  canvasObjectId : Option String
deriving DecidableEq

/-- `Track` from the timeline types.  `isVisible` is `boolean | undefined`
in the source (`undefined` counts as visible via the `!== false` test), so
it is modelled as `Option Bool`; `isKeyframeMode` is used only through
truthiness tests and is modelled as `Bool`. -/
structure Track where
  id : String
  name : String
  clips : List TimelineClip
  isVisible : Option Bool
  isMuted : Bool
  isLocked : Bool
  isKeyframeMode : Bool
deriving DecidableEq

/-- A canvas object as seen by the store edit gateway: an id plus a dynamic
property bag (`updateObject(id, { [property]: value })` writes a dynamic
key, so the bag is an association list). -/
structure CanvasObj where
  id : String
  props : List (String × KFValue)
deriving DecidableEq

/-- JavaScript object-spread update `{ ...obj, [key]: v }` on a property
bag: overwrite the key if present, append it otherwise. -/
def setProp (l : List (String × KFValue)) (key : String) (v : KFValue) :
    List (String × KFValue) :=
  if l.any (fun p => p.1 == key) then
    l.map (fun p => if p.1 == key then (key, v) else p)
  else l ++ [(key, v)]

/-- `updateObject(id, { [property]: value })`: map over the object list,
merging the update into the object with the given id. -/
def updateObjects (objs : List CanvasObj) (objectId property : String)
    (v : KFValue) : List CanvasObj :=
  objs.map (fun o => if o.id == objectId then
    { o with props := setProp o.props property v } else o)

/-- Property read used to state what the gateway wrote: the bag entry of
the first object carrying the id. -/
def getObjProp (objs : List CanvasObj) (objectId property : String) :
    Option KFValue :=
  (objs.find? (fun o => o.id == objectId)).bind
    (fun o => (o.props.find? (fun p => p.1 == property)).map (fun p => p.2))

/-- Store action `addKeyframe`: drop every existing keyframe for the same
object and property whose relative time is within 0.01 s of the new one,
then append the new keyframe. -/
def addKeyframeStore (keyframes : List Keyframe) (keyframe : Keyframe) :
    List Keyframe :=
  let filteredKeyframes := keyframes.filter (fun kf =>
    !(kf.objectId == keyframe.objectId ∧
      kf.property == keyframe.property ∧
      |kf.relativeTime - keyframe.relativeTime| < 1 / 100))
  filteredKeyframes ++ [keyframe]

/-- The §3 keyframe invariant: no two keyframes of the same
(objectId, property) pair lie within 0.01 s of each other. -/
def keyframeInvariant (keyframes : List Keyframe) : Prop :=
  List.Pairwise (fun a b => a.objectId = b.objectId → a.property = b.property →
    1 / 100 ≤ |a.relativeTime - b.relativeTime|) keyframes

instance keyframeInvariantDecidable (keyframes : List Keyframe) :
    Decidable (keyframeInvariant keyframes) :=
  List.instDecidablePairwise keyframes

/-- The store slice read and written by `applyObjectPropertyChange`. -/
structure StoreState where
  objects : List CanvasObj
  keyframes : List Keyframe
  tracks : List Track
  selectedClipId : Option String
  currentTime : ℚ
deriving DecidableEq

/-- The target-search loop of `applyObjectPropertyChange`: for each track in
order, find the clip with the selected id; accept the first track whose
found clip also links to the edited object, otherwise keep searching. -/
def findTargetTrackClip : List Track → String → String →
    Option (Track × TimelineClip)
  | [], _, _ => none
  | track :: rest, selectedClipId, objectId =>
      match track.clips.find? (fun c => c.id == selectedClipId) with
      | some clip =>
          if clip.canvasObjectId == some objectId then some (track, clip)
          else findTargetTrackClip rest selectedClipId objectId
      | none => findTargetTrackClip rest selectedClipId objectId

/-- Store action `applyObjectPropertyChange(objectId, property, value)`:
if a clip is selected, the selected clip links to the edited object, and its
track is in keyframe mode, insert a keyframe at
`relativeTime = currentTime - clip.startTime` (with the collision-replace
rule of `addKeyframe` and easing name linear); in every case write the new
value onto the live property of the object.  `newId` stands for the fresh
UUID the source generates. -/
def applyObjectPropertyChange (st : StoreState) (objectId property : String)
    (value : KFValue) (newId : String) : StoreState :=
  let st1 :=
    match st.selectedClipId with
    | none => st
    | some selectedClipId =>
        match findTargetTrackClip st.tracks selectedClipId objectId with
        | some (targetTrack, targetClip) =>
            if targetTrack.isKeyframeMode then
              let relativeTime := st.currentTime - targetClip.startTime
              let keyframe : Keyframe :=
                ⟨newId, objectId, relativeTime, property, value, some "linear"⟩
              { st with keyframes := addKeyframeStore st.keyframes keyframe }
            else st
        | none => st
  { st1 with objects := updateObjects st1.objects objectId property value }

/-- The `Partial<TimelineClip>` updates that flow into `updateClip`
(only the fields the claims exercise carry update slots). -/
structure ClipUpdates where
  startTime : Option ℚ
  duration : Option ℚ
  trimStart : Option ℚ
  trimEnd : Option ℚ
deriving DecidableEq

/-- Merging `{ ...clip, ...updates }` and the validity clamps of
`updateClip`: `startTime ≥ 0`, `duration ≥ 0.1`, and `trimEnd` recomputed
as `trimStart + duration` whenever the update carries a duration. -/
def applyClipUpdates (clip : TimelineClip) (u : ClipUpdates) : TimelineClip :=
  let merged := { clip with
    startTime := u.startTime.getD clip.startTime,
    duration := u.duration.getD clip.duration,
    trimStart := u.trimStart.getD clip.trimStart,
    trimEnd := u.trimEnd.getD clip.trimEnd }
  let clamped := { merged with
    startTime := max 0 merged.startTime,
    duration := max (1 / 10) merged.duration }
  match u.duration with
  | some _ => { clamped with trimEnd := clamped.trimStart + clamped.duration }
  | none => clamped

/-- The track mapping step of `updateClip`: in the addressed track, replace
the addressed clip by its updated, clamped version. -/
def updateClipInTracks (tracks : List Track) (trackId clipId : String)
    (u : ClipUpdates) : List Track :=
  tracks.map (fun track =>
    if track.id == trackId then
      { track with clips := track.clips.map (fun clip =>
          if clip.id == clipId then applyClipUpdates clip u else clip) }
    else track)

/-- The max-end-time fold of `updateClip`: `maxEndTime` starts at 0 and is
raised to every clip end `startTime + duration` that exceeds it. -/
def maxEndTime (tracks : List Track) : ℚ :=
  tracks.foldl (fun m track =>
    track.clips.foldl (fun m2 clip =>
      if clip.startTime + clip.duration > m2 then clip.startTime + clip.duration
      else m2) m) 0

/-- Store action `updateClip`: apply the clip updates, then set the global
duration to `max(currentDuration, maxEndTime over all updated clips)`. -/
def updateClip (tracks : List Track) (durationNow : ℚ)
    (trackId clipId : String) (u : ClipUpdates) : List Track × ℚ :=
  let updatedTracks := updateClipInTracks tracks trackId clipId u
  (updatedTracks, max durationNow (maxEndTime updatedTracks))

/-- Store action `saveCanvasState`: truncate the redo tail
(`slice(0, historyIndex + 1)`), push the snapshot, and when the history
exceeds 20 entries evict the oldest (`shift`) and point the index at the
last entry; otherwise advance the index by one. -/
def saveCanvasState (canvasHistory : List String) (historyIndex : ℤ)
    (state : String) : List String × ℤ :=
  let newHistory := canvasHistory.take (historyIndex + 1).toNat ++ [state]
  if newHistory.length > 20 then
    let shifted := newHistory.drop 1
    (shifted, (shifted.length : ℤ) - 1)
  else
    (newHistory, historyIndex + 1)

/-- `n` sequential `saveCanvasState` calls with snapshots
`"0", "1", ...` starting from the given history. -/
def runSaves (start : List String × ℤ) (n : ℕ) : List String × ℤ :=
  (List.range n).foldl (fun acc i => saveCanvasState acc.1 acc.2 (toString i))
    start

/-- A canvas mirror object as the timeline-sync pass sees it: the animation
id and the fabric `visible` flag. -/
structure SyncObj where
  id : String
  visible : Bool
deriving DecidableEq

/-- Whether some clip of some track links to the object
(`clip.canvasObjectId === objectId` over all tracks and clips). -/
def hasCorrespondingClip (tracks : List Track) (objectId : String) : Bool :=
  tracks.any (fun track =>
    track.clips.any (fun clip => clip.canvasObjectId == some objectId))

/-- First loop of `updateCanvasVisibility`: an object with no corresponding
clip that is currently hidden is made visible (orphans stay visible). -/
def orphanPass (tracks : List Track) (objs : List SyncObj) : List SyncObj :=
  objs.map (fun obj =>
    if !hasCorrespondingClip tracks obj.id ∧ !obj.visible then
      { obj with visible := true }
    else obj)

/-- Visibility computed for one clip on one track:
`(time within [startTime, startTime + duration]) AND (track.isVisible !== false)`. -/
def clipShouldBeVisible (track : Track) (clip : TimelineClip)
    (currentTime : ℚ) : Bool :=
  (decide (clip.startTime ≤ currentTime) &&
   decide (currentTime ≤ clip.startTime + clip.duration)) &&
  !(track.isVisible == some false)

/-- One step of the second loop of `updateCanvasVisibility`, seen from one
object: the object linked by the clip receives the derived visibility,
every other object is untouched. -/
def applyClipVisibilityObj (track : Track) (clip : TimelineClip)
    (currentTime : ℚ) (obj : SyncObj) : SyncObj :=
  if clip.canvasObjectId == some obj.id then
    { obj with visible := clipShouldBeVisible track clip currentTime }
  else obj

/-- One step of the second loop of `updateCanvasVisibility`: write the
derived visibility onto the object linked by the clip (clips without a
linked or present object are skipped). -/
def applyClipVisibility (track : Track) (clip : TimelineClip)
    (currentTime : ℚ) (objs : List SyncObj) : List SyncObj :=
  objs.map (applyClipVisibilityObj track clip currentTime)

/-- Second loop of `updateCanvasVisibility`: every track, every clip, in
order. -/
def trackVisibilityPass (tracks : List Track) (currentTime : ℚ)
    (objs : List SyncObj) : List SyncObj :=
  tracks.foldl (fun acc track =>
    track.clips.foldl (fun acc2 clip =>
      applyClipVisibility track clip currentTime acc2) acc) objs

/-- `updateCanvasVisibility` from the timeline-sync hook: the orphan pass
followed by the per-track/per-clip visibility derivation. -/
def updateCanvasVisibility (tracks : List Track) (currentTime : ℚ)
    (objs : List SyncObj) : List SyncObj :=
  trackVisibilityPass tracks currentTime (orphanPass tracks objs)

/-- All (track, clip) pairs whose clip links to the object, in iteration
order — the owners that write the visibility of the object. -/
def ownersOf (tracks : List Track) (objectId : String) :
    List (Track × TimelineClip) :=
  tracks.flatMap (fun track =>
    (track.clips.filter (fun clip => clip.canvasObjectId == some objectId)).map
      (fun clip => (track, clip)))

/-- The global playback slice touched by the exporters: the fields
`currentTime` and `isPlaying` of the store. -/
structure PlaybackState where
  currentTime : ℚ
  isPlaying : Bool
deriving DecidableEq

/-- State effect of `exportGIF` on the playback slice.  The source saves
`originalTime`/`originalPlaying`, sets `isPlaying` to `false`, renders the
frame loop (`updateCanvasToTime` mutates only canvas mirror objects, never
`currentTime` or `isPlaying`), and only on the success path — before the
`complete` progress report — runs `setCurrentTime(originalTime)` and
`setIsPlaying(originalPlaying)`.  A thrown error (render failure or sink
rejection, `fails = true`) propagates through the `catch` re-throw, and the
`finally` block resets only `isExporting`/`exportProgress`, so no restore
runs on that path. -/
def exportGIFRun (s0 : PlaybackState) (fails : Bool) :
    Except String Unit × PlaybackState :=
  let originalTime := s0.currentTime
  let originalPlaying := s0.isPlaying
  let s1 : PlaybackState := { s0 with isPlaying := false }
  if fails then
    (Except.error "GIF export failed", s1)
  else
    let s2 : PlaybackState := { s1 with currentTime := originalTime }
    let s3 : PlaybackState := { s2 with isPlaying := originalPlaying }
    (Except.ok (), s3)

/-- State effect of `exportVideo` (WebM) on the playback slice: identical
control flow to `exportGIF` — restore of `currentTime`/`isPlaying` only on
the success path, never on the thrown-error path. -/
def exportVideoRun (s0 : PlaybackState) (fails : Bool) :
    Except String Unit × PlaybackState :=
  let originalTime := s0.currentTime
  let originalPlaying := s0.isPlaying
  let s1 : PlaybackState := { s0 with isPlaying := false }
  if fails then
    (Except.error "Video export failed", s1)
  else
    let s2 : PlaybackState := { s1 with currentTime := originalTime }
    let s3 : PlaybackState := { s2 with isPlaying := originalPlaying }
    (Except.ok (), s3)

def kfLeft0 : Keyframe := ⟨"k1", "A", 0, "left", .num 100, some "linear"⟩

def kfLeft3 : Keyframe := ⟨"k2", "A", 3, "left", .num 400, some "linear"⟩

def colorKf0 : Keyframe := ⟨"ck0", "A", 0, "fill", .str "#000000", some "linear"⟩

def colorKf1 : Keyframe := ⟨"ck1", "A", 1, "fill", .str "#ffffff", some "linear"⟩

def kfDemoA : Keyframe := ⟨"ka", "A", 2, "left", .num 100, some "linear"⟩

def kfDemoB : Keyframe := ⟨"kb", "A", 401 / 200, "left", .num 200, some "linear"⟩

def opcClip : TimelineClip := ⟨"c1", "asset1", 2, 5, 0, 5, "Clip", some "o1"⟩

def opcTrack : Track := ⟨"t1", "Track", [opcClip], some true, false, false, true⟩

def opcObj : CanvasObj := ⟨"o1", [("left", KFValue.num 1)]⟩

def opcStoreNoSel : StoreState := ⟨[opcObj], [], [opcTrack], none, 5⟩

def opcStoreSel : StoreState := ⟨[opcObj], [], [opcTrack], some "c1", 5⟩

/-- The clip end times `startTime + duration` of every clip of every track,
in iteration order (the quantity the duration fold maximises over). -/
def clipEnds (tracks : List Track) : List ℚ :=
  tracks.flatMap (fun track =>
    track.clips.map (fun clip => clip.startTime + clip.duration))

def c6Clip : TimelineClip := ⟨"c1", "a", 2, 5, 0, 5, "Clip", some "o1"⟩

def c6Track : Track := ⟨"t1", "T", [c6Clip], some true, false, false, false⟩

def visClip : TimelineClip := ⟨"vc1", "a", 2, 5, 0, 5, "Clip", some "vo1"⟩

def visTrack : Track := ⟨"vt1", "T", [visClip], some true, false, false, false⟩

def visObjs : List SyncObj := [⟨"vo1", false⟩, ⟨"orphan", false⟩]

theorem scanKeyframes_exact (pre : List Keyframe) (k : Keyframe)
    (suf : List Keyframe) (r : ℚ) (prev : Option Keyframe)
    (hpre : ∀ x ∈ pre, x.relativeTime < r) (hk : k.relativeTime = r) :
    scanKeyframes (pre ++ k :: suf) r prev = (some k, some k) := by
  induction pre generalizing prev with
  | nil =>
      simp only [List.nil_append, scanKeyframes]
      rw [if_pos (le_of_eq hk), if_pos (ge_of_eq hk)]
  | cons x xs ih =>
      have hx : x.relativeTime < r := hpre x (List.mem_cons_self x xs)
      simp only [List.cons_append, scanKeyframes]
      rw [if_neg (not_le.mpr hx)]
      exact ih _ (fun y hy => hpre y (List.mem_cons_of_mem x hy))

theorem scanKeyframes_between (p n : Keyframe) (r : ℚ)
    (h1 : p.relativeTime < r) (h2 : r < n.relativeTime) :
    scanKeyframes [p, n] r none = (some p, some n) := by
  simp only [scanKeyframes]
  rw [if_pos (le_of_lt h1), if_neg (not_le.mpr h1), if_neg (not_le.mpr h2),
    if_pos (le_of_lt h2 : r ≤ n.relativeTime)]

/-- Interpolating between exactly two bracketing keyframes of the same
object and property: the result applies the easing named by the `next`
keyframe to the progress inside the segment. -/
theorem interpolateAt_pair (p n : Keyframe) (objectId property : String)
    (cs t : ℚ)
    (hpo : p.objectId = objectId) (hno : n.objectId = objectId)
    (hpp : p.property = property) (hnp : n.property = property)
    (h1 : p.relativeTime < t - cs) (h2 : t - cs < n.relativeTime) :
    interpolateAt [p, n] objectId property cs t =
      some (interpValues p.value n.value
        (resolveEasing n.easing
          ((t - cs - p.relativeTime) / (n.relativeTime - p.relativeTime)))) := by
  have hle : kfLe p n := le_of_lt (h1.trans h2)
  have hfilter :
      ([p, n].filter (fun k => k.objectId == objectId)).filter
        (fun k => k.property == property) = [p, n] := by
    simp [List.filter, hpo, hno, hpp, hnp]
  have hsort : List.insertionSort kfLe [p, n] = [p, n] := by
    simp [List.insertionSort, List.orderedInsert, if_pos hle]
  have hne : p.relativeTime ≠ n.relativeTime := ne_of_lt (h1.trans h2)
  simp only [interpolateAt]
  rw [hfilter, hsort, scanKeyframes_between p n (t - cs) h1 h2]
  simp only [resolveInterp, if_neg hne]

/-- C4: for every recorded keyframe `k` of an (objectId, property) pair
(relative times of the keyframes of one pair being pairwise distinct, as
the store collision rule guarantees), evaluating the interpolation engine
at global time `clipStartTime + k.relativeTime` returns exactly `k.value`. -/
theorem c4_exact_hit (keyframes : List Keyframe) (k : Keyframe)
    (objectId property : String) (clipStartTime : ℚ)
    (hmem : k ∈ keyframes) (hoid : k.objectId = objectId)
    (hprop : k.property = property)
    (hdist : List.Pairwise (fun a b => a.objectId = b.objectId →
      a.property = b.property → a.relativeTime ≠ b.relativeTime) keyframes) :
    interpolateAt keyframes objectId property clipStartTime
      (clipStartTime + k.relativeTime) = some k.value := by
  have hsub : (((keyframes.filter (fun x => x.objectId == objectId)).filter
      (fun x => x.property == property))).Sublist keyframes :=
    (List.filter_sublist _).trans (List.filter_sublist _)
  have hmem2 : k ∈ (keyframes.filter (fun x => x.objectId == objectId)).filter
      (fun x => x.property == property) := by
    simp [List.mem_filter, hmem, hoid, hprop]
  have hall : ∀ x ∈ (keyframes.filter (fun x => x.objectId == objectId)).filter
      (fun x => x.property == property),
      x.objectId = objectId ∧ x.property = property := by
    intro x hx
    simp only [List.mem_filter, beq_iff_eq] at hx
    exact ⟨hx.1.2, hx.2⟩
  have hdist2 := List.Pairwise.sublist hsub hdist
  have hperm := List.perm_insertionSort kfLe
    ((keyframes.filter (fun x => x.objectId == objectId)).filter
      (fun x => x.property == property))
  have hsorted := List.sorted_insertionSort kfLe
    ((keyframes.filter (fun x => x.objectId == objectId)).filter
      (fun x => x.property == property))
  have hmem3 : k ∈ List.insertionSort kfLe
      ((keyframes.filter (fun x => x.objectId == objectId)).filter
        (fun x => x.property == property)) := hperm.mem_iff.mpr hmem2
  have hsymm : ∀ {x y : Keyframe},
      (x.objectId = y.objectId → x.property = y.property →
        x.relativeTime ≠ y.relativeTime) →
      (y.objectId = x.objectId → y.property = x.property →
        y.relativeTime ≠ x.relativeTime) := by
    intro x y h e1 e2
    exact (h e1.symm e2.symm).symm
  have hdist3 := (hperm.pairwise_iff hsymm).mpr hdist2
  have hall3 : ∀ x ∈ List.insertionSort kfLe
      ((keyframes.filter (fun x => x.objectId == objectId)).filter
        (fun x => x.property == property)),
      x.objectId = objectId ∧ x.property = property :=
    fun x hx => hall x (hperm.subset hx)
  obtain ⟨pre, suf, hsplit⟩ := List.append_of_mem hmem3
  have hs2 : List.Pairwise kfLe (pre ++ k :: suf) := hsplit ▸ hsorted
  have hd2 : List.Pairwise (fun a b : Keyframe => a.objectId = b.objectId →
      a.property = b.property → a.relativeTime ≠ b.relativeTime)
      (pre ++ k :: suf) := hsplit ▸ hdist3
  have hpre : ∀ x ∈ pre, x.relativeTime < k.relativeTime := by
    intro x hx
    have hx_sorted : x ∈ pre ++ k :: suf := List.mem_append.mpr (Or.inl hx)
    have hxo : x.objectId = objectId ∧ x.property = property :=
      hall3 x (hsplit ▸ hx_sorted)
    have hle : kfLe x k :=
      (List.pairwise_append.mp hs2).2.2 x hx k (List.mem_cons_self _ _)
    have hne : x.relativeTime ≠ k.relativeTime :=
      (List.pairwise_append.mp hd2).2.2 x hx k (List.mem_cons_self _ _)
        (hxo.1.trans hoid.symm) (hxo.2.trans hprop.symm)
    exact lt_of_le_of_ne hle hne
  simp only [interpolateAt]
  have hr : clipStartTime + k.relativeTime - clipStartTime = k.relativeTime := by
    ring
  rw [hr, hsplit, scanKeyframes_exact pre k suf _ none hpre rfl]
  simp [resolveInterp]

theorem resolveEasing_linear : resolveEasing (some "linear") = fun t => t := rfl

/-- C5: for two numeric keyframes with linear easing and a query time
strictly between their relative times, the engine returns
`prev + (next - prev) * (r - prevTime) / (nextTime - prevTime)`. -/
theorem c5_linear_between_keyframes (p n : Keyframe) (objectId property : String) (cs t a b : ℚ)
    (hpo : p.objectId = objectId) (hno : n.objectId = objectId)
    (hpp : p.property = property) (hnp : n.property = property)
    (hpv : p.value = .num a) (hnv : n.value = .num b)
    (hne : n.easing = some "linear")
    (h1 : p.relativeTime < t - cs) (h2 : t - cs < n.relativeTime) :
    interpolateAt [p, n] objectId property cs t =
      some (.num (a + (b - a) *
        ((t - cs - p.relativeTime) / (n.relativeTime - p.relativeTime)))) := by
  rw [interpolateAt_pair p n objectId property cs t hpo hno hpp hnp h1 h2,
    hpv, hnv, hne, resolveEasing_linear]
  simp [interpValues, lerp]

/-- Witness for C5: keyframes left = (0, 100) and (3, 400) in a clip
starting at global time 10, queried at global time 11.5, give left = 250. -/
theorem c5_linear_between_keyframes_witness :
    interpolateAt [kfLeft0, kfLeft3] "A" "left" 10 (23 / 2) =
      some (KFValue.num 250) := by
  have h := c5_linear_between_keyframes kfLeft0 kfLeft3 "A" "left" 10 (23 / 2) 100 400
    rfl rfl rfl rfl rfl rfl rfl (by norm_num [kfLeft0]) (by norm_num [kfLeft3])
  rw [h]
  norm_num [kfLeft0, kfLeft3]

/-- Witness for C4: the keyframe at relative time 3 of a clip starting at
global time 10 is reproduced exactly at global time 13. -/
theorem c4_exact_hit_witness :
    interpolateAt [kfLeft0, kfLeft3] "A" "left" 10 13 =
      some (KFValue.num 400) := by
  have h := c4_exact_hit [kfLeft0, kfLeft3] kfLeft3 "A" "left" 10
    (by simp) rfl rfl (by decide)
  norm_num [kfLeft3] at h
  exact h

theorem lerpColor_half : lerpColor "#000000" "#ffffff" (1 / 2) = "#808080" := by
  have h1 : parseHex (sliceFrom1 "#000000") = 0 := by decide
  have h2 : parseHex (sliceFrom1 "#ffffff") = 16777215 := by decide
  rw [lerpColor, if_pos (by decide), h1, h2]
  norm_num [lerp, jsRound]
  decide

theorem interp_color_demo :
    interpolateAt [colorKf0, colorKf1] "A" "fill" 0 (1 / 2) =
      some (KFValue.str "#808080") := by
  rw [interpolateAt_pair colorKf0 colorKf1 "A" "fill" 0 (1 / 2)
    rfl rfl rfl rfl (by norm_num [colorKf0]) (by norm_num [colorKf1])]
  simp only [colorKf0, colorKf1, resolveEasing_linear]
  norm_num [interpValues]
  rw [if_pos (by decide : (startsWithHash "#000000" ∧ startsWithHash "#ffffff"))]
  rw [lerpColor_half]

/-- C7: `addKeyframe` preserves the invariant that no two keyframes of the
same (objectId, property) pair lie within 0.01 s; inserting at relative
time 2.005 after 2.0 for the same pair leaves exactly one keyframe,
carrying the later value. -/
theorem c7_addKeyframe_collision_replace :
    (∀ ks kf, keyframeInvariant ks →
      keyframeInvariant (addKeyframeStore ks kf))
    ∧ addKeyframeStore (addKeyframeStore [] kfDemoA) kfDemoB = [kfDemoB] := by
  constructor
  · intro ks kf h
    unfold keyframeInvariant addKeyframeStore
    rw [List.pairwise_append]
    refine ⟨List.Pairwise.sublist (List.filter_sublist ks) h,
      List.pairwise_singleton _ _, ?_⟩
    intro a ha b hb heq1 heq2
    have hb2 : b = kf := List.eq_of_mem_singleton hb
    subst hb2
    rw [List.mem_filter] at ha
    have hcond := ha.2
    simp only [heq1, heq2, beq_self_eq_true, true_and, Bool.not_eq_true',
      decide_eq_false_iff_not, not_lt] at hcond
    exact hcond
  · have habs : |(2 : ℚ) - 401 / 200| < (100 : ℚ)⁻¹ := by
      rw [show (2 : ℚ) - 401 / 200 = -(1 / 200) by norm_num, abs_neg,
        abs_of_pos (by norm_num : (0 : ℚ) < 1 / 200)]
      norm_num
    simp [addKeyframeStore, kfDemoA, kfDemoB, habs]

set_option maxRecDepth 8000 in
/-- C8: after 25 sequential canvas-state saves starting from an empty
history, exactly the 20 most recent snapshots remain (the oldest 5 evicted
in order) and the history index points at the last entry. -/
theorem c8_history_cap :
    runSaves ([], -1) 25 = (((List.range 25).drop 5).map toString, 19)
    ∧ (runSaves ([], -1) 25).2 = ((runSaves ([], -1) 25).1.length : ℤ) - 1 := by
  decide

/-- C1 (code bug): the exporters restore the pre-export playback time and
playing flag only on the success path; on a thrown error the playing flag
is left false (the global time itself is never mutated by an export run),
so a run that starts with the playing flag set and fails ends with it
cleared, contradicting the restore-on-every-exit-path claim. -/
theorem c1_export_restore_on_success_only :
    (∀ s : PlaybackState, (exportGIFRun s false).2 = s)
    ∧ (∀ s : PlaybackState, (exportVideoRun s false).2 = s)
    ∧ (∀ s : PlaybackState, (exportGIFRun s true).2 =
        { currentTime := s.currentTime, isPlaying := false })
    ∧ (∀ s : PlaybackState, (exportVideoRun s true).2 =
        { currentTime := s.currentTime, isPlaying := false })
    ∧ (exportGIFRun ⟨5, true⟩ true).2.isPlaying ≠
        (⟨5, true⟩ : PlaybackState).isPlaying := by
  exact ⟨fun s => rfl, fun s => rfl, fun s => rfl, fun s => rfl, by decide⟩

/-- C3 counterexample: an object that does belong to a clip whose track has
animation mode enabled gets no keyframe from `applyObjectPropertyChange`
when no clip is selected, refuting the claim that clip membership alone
triggers keyframe creation. -/
theorem c3_gateway_counterexample :
    (∃ tr ∈ opcStoreNoSel.tracks, ∃ cl ∈ tr.clips,
      cl.canvasObjectId = some "o1" ∧ tr.isKeyframeMode = true)
    ∧ (applyObjectPropertyChange opcStoreNoSel "o1" "left"
        (KFValue.num 42) "kf1").keyframes = [] := by
  constructor
  · exact ⟨opcTrack, by decide, opcClip, by decide, by decide, by decide⟩
  · rfl

theorem find_map_prop (l : List (String × KFValue)) (k : String) (v : KFValue)
    (h : l.any (fun p => p.1 == k) = true) :
    (l.map (fun p => if p.1 == k then (k, v) else p)).find?
      (fun p => p.1 == k) = some (k, v) := by
  induction l with
  | nil => simp at h
  | cons p ps ih =>
      by_cases hp : (p.1 == k) = true
      · rw [List.map_cons, if_pos hp,
          List.find?_cons_of_pos _ (by simp)]
      · rw [List.map_cons, if_neg hp, List.find?_cons_of_neg _ (by simp [hp])]
        refine ih ?_
        rcases List.any_eq_true.mp h with ⟨q, hq, hqk⟩
        rcases List.mem_cons.mp hq with hq1 | hq2
        · exact absurd (hq1 ▸ hqk) hp
        · exact List.any_eq_true.mpr ⟨q, hq2, hqk⟩

theorem find_append_single (l : List (String × KFValue)) (k : String)
    (v : KFValue) (h : ∀ p ∈ l, (p.1 == k) = false) :
    (l ++ [(k, v)]).find? (fun p => p.1 == k) = some (k, v) := by
  induction l with
  | nil => simp [List.find?]
  | cons p ps ih =>
      rw [List.cons_append,
        List.find?_cons_of_neg _ (by simp [h p (List.mem_cons_self p ps)])]
      exact ih (fun q hq => h q (List.mem_cons_of_mem p hq))

theorem setProp_find (l : List (String × KFValue)) (k : String) (v : KFValue) :
    (setProp l k v).find? (fun p => p.1 == k) = some (k, v) := by
  unfold setProp
  by_cases h : l.any (fun p => p.1 == k) = true
  · rw [if_pos h]
    exact find_map_prop l k v h
  · rw [if_neg h]
    refine find_append_single l k v ?_
    intro p hp
    by_contra hcon
    exact h (List.any_eq_true.mpr ⟨p, hp, by simpa using hcon⟩)

theorem updateObjects_getProp (objs : List CanvasObj)
    (objectId property : String) (v : KFValue)
    (h : ∃ o ∈ objs, o.id = objectId) :
    getObjProp (updateObjects objs objectId property v) objectId property =
      some v := by
  induction objs with
  | nil => simp at h
  | cons o os ih =>
      by_cases ho : (o.id == objectId) = true
      · unfold getObjProp updateObjects
        rw [List.map_cons, if_pos ho, List.find?_cons_of_pos _ (by simpa using ho)]
        simp only [Option.bind_eq_bind, Option.some_bind]
        rw [setProp_find]
        rfl
      · obtain ⟨w, hw, hwid⟩ := h
        have hwos : w ∈ os := by
          rcases List.mem_cons.mp hw with h1 | h2
          · exact absurd (by simp [← h1, hwid]) ho
          · exact h2
        unfold getObjProp updateObjects
        rw [List.map_cons, if_neg ho, List.find?_cons_of_neg _ (by simpa using ho)]
        exact ih ⟨w, hwos, hwid⟩

theorem applyOPC_objects (st : StoreState) (objectId property : String)
    (value : KFValue) (newId : String) :
    (applyObjectPropertyChange st objectId property value newId).objects =
      updateObjects st.objects objectId property value := by
  unfold applyObjectPropertyChange
  cases hsel : st.selectedClipId with
  | none => rfl
  | some scid =>
      cases hft : findTargetTrackClip st.tracks scid objectId with
      | none => simp only [hft]
      | some tc =>
          by_cases hkm : tc.1.isKeyframeMode
          · simp [hft, hkm]
          · simp [hft, hkm]

/-- C3 (amended): `applyObjectPropertyChange` inserts a keyframe at
`relativeTime = currentTime - clipStartTime` exactly when the currently
selected clip links to the edited object and the track of that clip has
animation mode on; with no selection, no matching target, or animation
mode off, the keyframe set is unchanged; in every case the live property
of the object is set to the new value. -/
theorem c3_gateway_amended (st : StoreState) (objectId property : String)
    (value : KFValue) (newId : String) :
    (∀ scid tr cl, st.selectedClipId = some scid →
      findTargetTrackClip st.tracks scid objectId = some (tr, cl) →
      tr.isKeyframeMode = true →
      (applyObjectPropertyChange st objectId property value newId).keyframes =
        addKeyframeStore st.keyframes
          ⟨newId, objectId, st.currentTime - cl.startTime, property, value,
           some "linear"⟩)
    ∧ (st.selectedClipId = none →
      (applyObjectPropertyChange st objectId property value newId).keyframes =
        st.keyframes)
    ∧ (∀ scid, st.selectedClipId = some scid →
      findTargetTrackClip st.tracks scid objectId = none →
      (applyObjectPropertyChange st objectId property value newId).keyframes =
        st.keyframes)
    ∧ (∀ scid tr cl, st.selectedClipId = some scid →
      findTargetTrackClip st.tracks scid objectId = some (tr, cl) →
      tr.isKeyframeMode = false →
      (applyObjectPropertyChange st objectId property value newId).keyframes =
        st.keyframes)
    ∧ ((∃ o ∈ st.objects, o.id = objectId) →
      getObjProp
        (applyObjectPropertyChange st objectId property value newId).objects
        objectId property = some value) := by
  refine ⟨?_, ?_, ?_, ?_, ?_⟩
  · intro scid tr cl h1 h2 h3
    unfold applyObjectPropertyChange
    rw [h1]
    simp only [h2, h3, if_true]
  · intro h1
    unfold applyObjectPropertyChange
    rw [h1]
  · intro scid h1 h2
    unfold applyObjectPropertyChange
    rw [h1]
    simp only [h2]
  · intro scid tr cl h1 h2 h3
    unfold applyObjectPropertyChange
    rw [h1]
    simp [h2, h3]
  · intro h
    rw [applyOPC_objects]
    exact updateObjects_getProp st.objects objectId property value h

/-- Witness for C3: with the clip selected and animation mode on, editing
left at global time 5 on a clip starting at 2 records a keyframe at
relative time 3 and writes the live value. -/
theorem c3_gateway_amended_witness :
    (applyObjectPropertyChange opcStoreSel "o1" "left" (KFValue.num 42)
      "kf1").keyframes =
      [⟨"kf1", "o1", 3, "left", KFValue.num 42, some "linear"⟩]
    ∧ getObjProp (applyObjectPropertyChange opcStoreSel "o1" "left"
        (KFValue.num 42) "kf1").objects "o1" "left" = some (KFValue.num 42) := by
  constructor
  · have h := (c3_gateway_amended opcStoreSel "o1" "left" (KFValue.num 42)
      "kf1").1 "c1" opcTrack opcClip rfl (by decide) rfl
    rw [h]
    norm_num [addKeyframeStore, opcClip, opcStoreSel]
  · exact (c3_gateway_amended opcStoreSel "o1" "left" (KFValue.num 42)
      "kf1").2.2.2.2 ⟨opcObj, by decide, rfl⟩

theorem foldl_if_eq_max {α : Type} (f : α → ℚ) (l : List α) (m : ℚ) :
    l.foldl (fun m2 x => if f x > m2 then f x else m2) m =
      l.foldl (fun m2 x => max m2 (f x)) m := by
  induction l generalizing m with
  | nil => rfl
  | cons x xs ih =>
      simp only [List.foldl_cons]
      rw [ih]
      congr 1
      rcases le_or_lt (f x) m with h | h
      · rw [if_neg (not_lt.mpr h), max_eq_left h]
      · rw [if_pos h, max_eq_right h.le]

theorem maxEndTime_eq_aux (tracks : List Track) (m : ℚ) :
    tracks.foldl (fun m1 track =>
      track.clips.foldl (fun m2 clip =>
        if clip.startTime + clip.duration > m2 then
          clip.startTime + clip.duration
        else m2) m1) m = (clipEnds tracks).foldl max m := by
  induction tracks generalizing m with
  | nil => rfl
  | cons track ts ih =>
      simp only [List.foldl_cons, clipEnds, List.flatMap_cons, List.foldl_append]
      rw [ih]
      congr 1
      rw [List.foldl_map, foldl_if_eq_max]

theorem maxEndTime_eq (tracks : List Track) :
    maxEndTime tracks = (clipEnds tracks).foldl max 0 :=
  maxEndTime_eq_aux tracks 0

theorem le_foldl_max (l : List ℚ) (m : ℚ) : m ≤ l.foldl max m := by
  induction l generalizing m with
  | nil => exact le_refl m
  | cons x xs ih => exact le_trans (le_max_left m x) (ih (max m x))

theorem mem_le_foldl_max (l : List ℚ) (m x : ℚ) (hx : x ∈ l) :
    x ≤ l.foldl max m := by
  induction l generalizing m with
  | nil => simp at hx
  | cons y ys ih =>
      rcases List.mem_cons.mp hx with h1 | h2
      · subst h1
        exact le_trans (le_max_right m x) (le_foldl_max ys (max m x))
      · exact ih (max m y) h2

theorem foldl_max_le (l : List ℚ) (m B : ℚ) (hm : m ≤ B)
    (h : ∀ x ∈ l, x ≤ B) : l.foldl max m ≤ B := by
  induction l generalizing m with
  | nil => exact hm
  | cons x xs ih =>
      exact ih (max m x) (max_le hm (h x (List.mem_cons_self x xs)))
        (fun y hy => h y (List.mem_cons_of_mem x hy))

/-- C6: `updateClip` sets the global duration to the maximum of the
previous duration and the largest clip end `startTime + duration` over all
updated clips, hence duration never decreases; extending the addressed
clip beyond the current duration (all other clip ends within it) raises
the duration to exactly the new clip end. -/
theorem c6_updateClip_duration (tracks : List Track) (dur : ℚ) (trackId clipId : String)
    (u : ClipUpdates) :
    (updateClip tracks dur trackId clipId u).2 =
      max dur ((clipEnds (updateClipInTracks tracks trackId clipId u)).foldl
        max 0)
    ∧ dur ≤ (updateClip tracks dur trackId clipId u).2
    ∧ (∀ tr cl, tr ∈ tracks → tr.id = trackId → cl ∈ tr.clips →
        cl.id = clipId →
        (∀ t ∈ tracks, ∀ c ∈ t.clips, t.id = trackId → c.id = clipId →
          t = tr ∧ c = cl) →
        (∀ t ∈ tracks, ∀ c ∈ t.clips, c.startTime + c.duration ≤ dur) →
        0 ≤ dur →
        dur < (applyClipUpdates cl u).startTime +
          (applyClipUpdates cl u).duration →
        (updateClip tracks dur trackId clipId u).2 =
          (applyClipUpdates cl u).startTime +
            (applyClipUpdates cl u).duration) := by
  refine ⟨?_, ?_, ?_⟩
  · show max dur (maxEndTime (updateClipInTracks tracks trackId clipId u)) = _
    rw [maxEndTime_eq]
  · exact le_max_left dur _
  · intro tr cl hmt htid hmc hcid huniq hinv hdur0 hext
    show max dur (maxEndTime (updateClipInTracks tracks trackId clipId u)) = _
    rw [maxEndTime_eq]
    have hE_mem : (applyClipUpdates cl u).startTime +
        (applyClipUpdates cl u).duration ∈
        clipEnds (updateClipInTracks tracks trackId clipId u) := by
      refine List.mem_flatMap.mpr ?_
      refine ⟨{ tr with clips := tr.clips.map (fun clip =>
        if clip.id == clipId then applyClipUpdates clip u else clip) }, ?_, ?_⟩
      · simp only [updateClipInTracks]
        refine List.mem_map.mpr ⟨tr, hmt, ?_⟩
        rw [if_pos (by simp [htid])]
      · refine List.mem_map.mpr ⟨applyClipUpdates cl u, ?_, rfl⟩
        refine List.mem_map.mpr ⟨cl, hmc, ?_⟩
        rw [if_pos (by simp [hcid])]
    have hbound : ∀ x ∈ clipEnds (updateClipInTracks tracks trackId clipId u),
        x ≤ (applyClipUpdates cl u).startTime +
          (applyClipUpdates cl u).duration := by
      intro x hx
      obtain ⟨t2, ht2, hx2⟩ := List.mem_flatMap.mp hx
      simp only [updateClipInTracks] at ht2
      obtain ⟨t, hmem_t, hft⟩ := List.mem_map.mp ht2
      obtain ⟨c2, hc2, hend⟩ := List.mem_map.mp hx2
      subst hend
      by_cases htid2 : (t.id == trackId) = true
      · rw [if_pos htid2] at hft
        subst hft
        obtain ⟨c, hmem_c, hgc⟩ := List.mem_map.mp hc2
        by_cases hcid2 : (c.id == clipId) = true
        · rw [if_pos hcid2] at hgc
          have huc := huniq t hmem_t c hmem_c (by simpa using htid2)
            (by simpa using hcid2)
          rw [← hgc, huc.2]
        · rw [if_neg hcid2] at hgc
          subst hgc
          exact le_trans (hinv t hmem_t c hmem_c) hext.le
      · rw [if_neg htid2] at hft
        subst hft
        exact le_trans (hinv t hmem_t c2 hc2) hext.le
    have hmax_eq : (clipEnds (updateClipInTracks tracks trackId clipId u)).foldl
        max 0 = (applyClipUpdates cl u).startTime +
          (applyClipUpdates cl u).duration :=
      le_antisymm (foldl_max_le _ 0 _ (le_trans hdur0 hext.le) hbound)
        (mem_le_foldl_max _ 0 _ hE_mem)
    rw [hmax_eq, max_eq_right hext.le]

theorem foldl_map_comm {α β : Type} (l : List β) (g : β → α → α)
    (xs : List α) :
    l.foldl (fun acc b => acc.map (g b)) xs =
      xs.map (fun x => l.foldl (fun y b => g b y) x) := by
  induction l generalizing xs with
  | nil => simp
  | cons b bs ih =>
      simp only [List.foldl_cons]
      rw [ih, List.map_map]
      rfl

theorem trackVisibilityPass_eq_map (tracks : List Track) (ct : ℚ)
    (objs : List SyncObj) :
    trackVisibilityPass tracks ct objs =
      objs.map (fun o => tracks.foldl (fun o1 track =>
        track.clips.foldl (fun o2 clip =>
          applyClipVisibilityObj track clip ct o2) o1) o) := by
  unfold trackVisibilityPass applyClipVisibility
  induction tracks generalizing objs with
  | nil => simp
  | cons track ts ih =>
      simp only [List.foldl_cons]
      rw [foldl_map_comm track.clips _ objs, ih, List.map_map]
      rfl

theorem ownersFold_id (l : List (Track × TimelineClip)) (ct : ℚ)
    (o : SyncObj) :
    (l.foldl (fun o1 tc =>
      { o1 with visible := clipShouldBeVisible tc.1 tc.2 ct }) o).id = o.id := by
  induction l generalizing o with
  | nil => rfl
  | cons tc tcs ih => simpa using ih _

theorem clipsFold_eq_owners (track : Track) (clips : List TimelineClip)
    (ct : ℚ) (o : SyncObj) :
    clips.foldl (fun o2 clip => applyClipVisibilityObj track clip ct o2) o =
      ((clips.filter (fun c => c.canvasObjectId == some o.id)).map
        (fun c => (track, c))).foldl (fun o1 tc =>
          { o1 with visible := clipShouldBeVisible tc.1 tc.2 ct }) o := by
  induction clips generalizing o with
  | nil => rfl
  | cons c cs ih =>
      by_cases hc : (c.canvasObjectId == some o.id) = true
      · simp only [List.foldl_cons, List.filter_cons, hc, if_true,
          List.map_cons, applyClipVisibilityObj]
        exact ih _
      · simp only [List.foldl_cons, List.filter_cons, hc,
          Bool.false_eq_true, if_false, applyClipVisibilityObj]
        exact ih o

theorem perObj_eq_ownersFold (tracks : List Track) (ct : ℚ) (o : SyncObj) :
    tracks.foldl (fun o1 track =>
      track.clips.foldl (fun o2 clip =>
        applyClipVisibilityObj track clip ct o2) o1) o =
    (ownersOf tracks o.id).foldl (fun o1 tc =>
      { o1 with visible := clipShouldBeVisible tc.1 tc.2 ct }) o := by
  induction tracks generalizing o with
  | nil => rfl
  | cons track ts ih =>
      simp only [List.foldl_cons, ownersOf, List.flatMap_cons,
        List.foldl_append]
      rw [clipsFold_eq_owners track track.clips ct o]
      have hid : (((track.clips.filter
          (fun c => c.canvasObjectId == some o.id)).map
          (fun c => (track, c))).foldl (fun o1 tc =>
            { o1 with visible := clipShouldBeVisible tc.1 tc.2 ct }) o).id =
          o.id := ownersFold_id _ ct o
      have := ih (((track.clips.filter
          (fun c => c.canvasObjectId == some o.id)).map
          (fun c => (track, c))).foldl (fun o1 tc =>
            { o1 with visible := clipShouldBeVisible tc.1 tc.2 ct }) o)
      rw [this, hid]
      simp only [ownersOf]

theorem hasClip_false_iff_owners_nil (tracks : List Track) (oid : String) :
    hasCorrespondingClip tracks oid = false ↔ ownersOf tracks oid = [] := by
  simp [hasCorrespondingClip, ownersOf, List.flatMap_eq_nil_iff,
    List.map_eq_nil_iff, List.filter_eq_nil_iff]

/-- C9: after the visibility pass, an object owned by exactly one clip is
visible precisely when the time lies within the closed clip window and the
owning track visibility flag is not false; an object owned by no clip ends
the pass visible. -/
theorem c9_visibility_derivation (tracks : List Track) (ct : ℚ) (objs : List SyncObj) :
    (∀ o ∈ objs, ∀ tr cl, ownersOf tracks o.id = [(tr, cl)] →
      (⟨o.id, (decide (cl.startTime ≤ ct) &&
               decide (ct ≤ cl.startTime + cl.duration)) &&
              !(tr.isVisible == some false)⟩ : SyncObj) ∈
        updateCanvasVisibility tracks ct objs)
    ∧ (∀ o ∈ objs, ownersOf tracks o.id = [] →
      (⟨o.id, true⟩ : SyncObj) ∈ updateCanvasVisibility tracks ct objs) := by
  have hmain : ∀ o ∈ objs,
      (let o1 := if !hasCorrespondingClip tracks o.id ∧ !o.visible then
          { o with visible := true } else o
       (ownersOf tracks o1.id).foldl (fun o2 tc =>
         { o2 with visible := clipShouldBeVisible tc.1 tc.2 ct }) o1) ∈
      updateCanvasVisibility tracks ct objs := by
    intro o ho
    unfold updateCanvasVisibility orphanPass
    rw [trackVisibilityPass_eq_map, List.map_map]
    refine List.mem_map.mpr ⟨o, ho, ?_⟩
    simp only [Function.comp]
    rw [perObj_eq_ownersFold]
  constructor
  · intro o ho tr cl howners
    have hclip : hasCorrespondingClip tracks o.id = true := by
      by_contra hc
      have h0 : hasCorrespondingClip tracks o.id = false :=
        Bool.not_eq_true _ ▸ eq_false_of_ne_true hc
      have := (hasClip_false_iff_owners_nil tracks o.id).mp h0
      rw [howners] at this
      simp at this
    have h := hmain o ho
    have hcond : ¬((!hasCorrespondingClip tracks o.id) = true ∧
        (!o.visible) = true) := by simp [hclip]
    simp only at h
    rw [if_neg hcond, howners] at h
    simpa [clipShouldBeVisible] using h
  · intro o ho howners
    have hclip : hasCorrespondingClip tracks o.id = false :=
      (hasClip_false_iff_owners_nil tracks o.id).mpr howners
    have h := hmain o ho
    simp only at h
    by_cases hv : o.visible = true
    · have hcond : ¬((!hasCorrespondingClip tracks o.id) = true ∧
          (!o.visible) = true) := by simp [hv]
      rw [if_neg hcond, howners] at h
      simp only [List.foldl_nil] at h
      have heta : o = (⟨o.id, true⟩ : SyncObj) := by
        cases o
        simp_all
      rwa [← heta]
    · have hcond : (!hasCorrespondingClip tracks o.id) = true ∧
          (!o.visible) = true :=
        ⟨by simp [hclip], by simp [eq_false_of_ne_true hv]⟩
      rw [if_pos hcond,
        show ({ o with visible := true } : SyncObj).id = o.id from rfl,
        howners] at h
      simpa using h

/-- Witness for C6: extending the single clip (start 2) to duration 40 on a
30-second timeline raises the duration to exactly 42. -/
theorem c6_updateClip_duration_witness :
    (updateClip [c6Track] 30 "t1" "c1" ⟨none, some 40, none, none⟩).2 = 42 := by
  have h := (c6_updateClip_duration [c6Track] 30 "t1" "c1" ⟨none, some 40, none, none⟩).2.2
    c6Track c6Clip (List.mem_singleton.mpr rfl) rfl
    (List.mem_singleton.mpr rfl) rfl
    (by
      intro t ht c hc h1 h2
      rw [List.mem_singleton] at ht
      subst ht
      simp only [c6Track, List.mem_singleton] at hc
      exact ⟨rfl, hc⟩)
    (by
      intro t ht c hc
      rw [List.mem_singleton] at ht
      subst ht
      simp only [c6Track, List.mem_singleton] at hc
      subst hc
      norm_num [c6Clip])
    (by norm_num)
    (by norm_num [applyClipUpdates, c6Clip, max_def])
  rw [h]
  norm_num [applyClipUpdates, c6Clip, max_def]

/-- Witness for C9: at time 3 inside the clip window from 2 to 7 on a
visible track the linked object becomes visible, and the orphan object is
made visible. -/
theorem c9_visibility_derivation_witness :
    (⟨"vo1", true⟩ : SyncObj) ∈ updateCanvasVisibility [visTrack] 3 visObjs
    ∧ (⟨"orphan", true⟩ : SyncObj) ∈
        updateCanvasVisibility [visTrack] 3 visObjs := by
  constructor
  · have h := (c9_visibility_derivation [visTrack] 3 visObjs).1 ⟨"vo1", false⟩
      (by simp [visObjs]) visTrack visClip (by decide)
    have e1 : decide (visClip.startTime ≤ (3 : ℚ)) = true :=
      decide_eq_true (by norm_num [visClip])
    have e2 : decide ((3 : ℚ) ≤ visClip.startTime + visClip.duration) = true :=
      decide_eq_true (by norm_num [visClip])
    have e3 : (!(visTrack.isVisible == some false)) = true := by decide
    rw [e1, e2, e3] at h
    simpa using h
  · have h := (c9_visibility_derivation [visTrack] 3 visObjs).2 ⟨"orphan", false⟩
      (by simp [visObjs]) (by decide)
    simpa using h

/-- C2 counterexample: interpolating the two color keyframes at relative
time 0.5 does not return the claimed string, because each channel is
127.5 and rounds up to 128 (hex 80), not down to 127 (hex 7f). -/
theorem c2_color_midpoint_counterexample :
    interpolateAt [colorKf0, colorKf1] "A" "fill" 0 (1 / 2) ≠
      some (KFValue.str "#7f7f7f") := by
  rw [interp_color_demo]
  decide

/-- C2 (amended): interpolating keyframes (0, black) and (1, white) with
linear easing at relative time 0.5 returns the hex string with every
channel rounded from 127.5 up to 128. -/
theorem c2_color_midpoint_amended :
    interpolateAt [colorKf0, colorKf1] "A" "fill" 0 (1 / 2) =
      some (KFValue.str "#808080")
    ∧ lerpColor "#000000" "#ffffff" (1 / 2) = "#808080" :=
  ⟨interp_color_demo, lerpColor_half⟩

/-- Witness for C7: inserting the colliding demo keyframe keeps the
collision invariant. -/
theorem c7_addKeyframe_collision_replace_witness :
    keyframeInvariant (addKeyframeStore [kfDemoA] kfDemoB) := by
  refine c7_addKeyframe_collision_replace.1 [kfDemoA] kfDemoB ?_
  simp [keyframeInvariant]
